import Mathlib

/-
  Verification development for the market-attention-graph ingestion pipeline.

  The collectors live in three notebooks (GDELT global-news poller, RSS feed
  poller, Twitter microblog poller) plus a Reddit data-source review.  Each
  collector is shallowly embedded below: the DuckDB tables become a `Store`
  value, datetime values become epoch seconds (`Int`, machine clock in UTC),
  and the SHA-256 based `hash_id` helpers are embedded down to the byte level
  so that id derivation and deduplication are computed for real.
-/

/-! ### SHA-256 over `Nat` (the `hashlib.sha256(text.encode()).hexdigest()` helper) -/

/-- Truncate to a 32-bit word, written with an explicit modulus. -/
def w32 (n : Nat) : Nat := n % 4294967296

/-- Right rotation of a 32-bit word. -/
def rotr (n x : Nat) : Nat := w32 ((x >>> n) ||| (x <<< (32 - n)))

def bsig0 (x : Nat) : Nat := (rotr 2 x) ^^^ (rotr 13 x) ^^^ (rotr 22 x)

def bsig1 (x : Nat) : Nat := (rotr 6 x) ^^^ (rotr 11 x) ^^^ (rotr 25 x)

def ssig0 (x : Nat) : Nat := (rotr 7 x) ^^^ (rotr 18 x) ^^^ (x >>> 3)

def ssig1 (x : Nat) : Nat := (rotr 17 x) ^^^ (rotr 19 x) ^^^ (x >>> 10)

/-- SHA-256 choice function; the complement is xor with the 32-bit mask. -/
def chF (x y z : Nat) : Nat := (x &&& y) ^^^ ((x ^^^ 4294967295) &&& z)

def majF (x y z : Nat) : Nat := (x &&& y) ^^^ (x &&& z) ^^^ (y &&& z)

/-- The 64 SHA-256 round constants. -/
def K256 : List Nat :=
  [1116352408, 1899447441, 3049323471, 3921009573, 961987163, 1508970993, 2453635748, 2870763221,
   3624381080, 310598401, 607225278, 1426881987, 1925078388, 2162078206, 2614888103, 3248222580,
   3835390401, 4022224774, 264347078, 604807628, 770255983, 1249150122, 1555081692, 1996064986,
   2554220882, 2821834349, 2952996808, 3210313671, 3336571891, 3584528711, 113926993, 338241895,
   666307205, 773529912, 1294757372, 1396182291, 1695183700, 1986661051, 2177026350, 2456956037,
   2730485921, 2820302411, 3259730800, 3345764771, 3516065817, 3600352804, 4094571909, 275423344,
   430227734, 506948616, 659060556, 883997877, 958139571, 1322822218, 1537002063, 1747873779,
   1955562222, 2024104815, 2227730452, 2361852424, 2428436474, 2756734187, 3204031479, 3329325298]

/-- The eight 32-bit working variables of the SHA-256 state. -/
structure Hash8 where
  a : Nat
  b : Nat
  c : Nat
  d : Nat
  e : Nat
  f : Nat
  g : Nat
  h : Nat
deriving DecidableEq

/-- The SHA-256 initial hash value. -/
def initH : Hash8 :=
  ⟨1779033703, 3144134277, 1013904242, 2773480762, 1359893119, 2600822924, 528734635, 1541459225⟩

/-- The message length in bits as 8 big-endian bytes. -/
def lenBytes (n : Nat) : List Nat :=
  [n / 72057594037927936 % 256, n / 281474976710656 % 256, n / 1099511627776 % 256,
   n / 4294967296 % 256, n / 16777216 % 256, n / 65536 % 256, n / 256 % 256, n % 256]

/-- SHA-256 padding: 0x80, zeros to 56 mod 64, then the bit length. -/
def padMsg (msg : List Nat) : List Nat :=
  let L := msg.length
  let zeros := (119 - L % 64) % 64
  msg ++ [128] ++ List.replicate zeros 0 ++ lenBytes (8 * L)

/-- Big-endian 4-byte groups to 32-bit words. -/
def toWords : List Nat → List Nat
  | b0 :: b1 :: b2 :: b3 :: rest => (b0 * 16777216 + b1 * 65536 + b2 * 256 + b3) :: toWords rest
  | _ => []

/-- Split into 64-byte blocks; the fuel argument keeps the recursion structural. -/
def toBlocksFuel : Nat → List Nat → List (List Nat)
  | 0, _ => []
  | _, [] => []
  | fuel + 1, l => l.take 64 :: toBlocksFuel fuel (l.drop 64)

def toBlocks (l : List Nat) : List (List Nat) := toBlocksFuel l.length l

/-- Message-schedule extension; the accumulator holds the words in reverse. -/
def extendLoop : Nat → List Nat → List Nat
  | 0, acc => acc
  | n + 1, acc =>
    extendLoop n
      (w32 (ssig1 (acc.getD 1 0) + acc.getD 6 0 + ssig0 (acc.getD 14 0) + acc.getD 15 0) :: acc)

/-- Extend 16 block words to the 64 schedule words. -/
def msgSchedule (ws : List Nat) : List Nat := (extendLoop 48 ws.reverse).reverse

/-- One SHA-256 compression round. -/
def compressStep (s : Hash8) (kw : Nat × Nat) : Hash8 :=
  let t1 := w32 (s.h + bsig1 s.e + chF s.e s.f s.g + kw.1 + kw.2)
  let t2 := w32 (bsig0 s.a + majF s.a s.b s.c)
  ⟨w32 (t1 + t2), s.a, s.b, s.c, w32 (s.d + t1), s.e, s.f, s.g⟩

/-- Compress one 64-byte block into the running hash value. -/
def processBlock (hv : Hash8) (block : List Nat) : Hash8 :=
  let ws := msgSchedule (toWords block)
  let s := (K256.zip ws).foldl compressStep hv
  ⟨w32 (hv.a + s.a), w32 (hv.b + s.b), w32 (hv.c + s.c), w32 (hv.d + s.d),
   w32 (hv.e + s.e), w32 (hv.f + s.f), w32 (hv.g + s.g), w32 (hv.h + s.h)⟩

/-- The SHA-256 digest of a byte sequence. -/
def sha256Digest (msg : List Nat) : Hash8 := (toBlocks (padMsg msg)).foldl processBlock initH

/-- Lower-case hex digit. -/
def hexChar (n : Nat) : Char := Char.ofNat (if n < 10 then 48 + n else 87 + n)

/-- A 32-bit word as 8 hex characters. -/
def toHex8 (w : Nat) : List Char :=
  [hexChar (w / 268435456 % 16), hexChar (w / 16777216 % 16), hexChar (w / 1048576 % 16),
   hexChar (w / 65536 % 16), hexChar (w / 4096 % 16), hexChar (w / 256 % 16),
   hexChar (w / 16 % 16), hexChar (w % 16)]

/-- The 64-character hex digest, as returned by `hexdigest()`. -/
def sha256Hex (msg : List Nat) : String :=
  let d := sha256Digest msg
  String.mk (toHex8 d.a ++ toHex8 d.b ++ toHex8 d.c ++ toHex8 d.d ++
             toHex8 d.e ++ toHex8 d.f ++ toHex8 d.g ++ toHex8 d.h)

/-- UTF-8 bytes of one Unicode scalar value, as in `str.encode()`. -/
def utf8Bytes (c : Char) : List Nat :=
  let n := c.toNat
  if n < 128 then [n]
  else if n < 2048 then [192 ||| (n >>> 6), 128 ||| (n &&& 63)]
  else if n < 65536 then
    [224 ||| (n >>> 12), 128 ||| ((n >>> 6) &&& 63), 128 ||| (n &&& 63)]
  else
    [240 ||| (n >>> 18), 128 ||| ((n >>> 12) &&& 63), 128 ||| ((n >>> 6) &&& 63), 128 ||| (n &&& 63)]

/-- `text.encode()`: UTF-8 bytes of a string. -/
def strEncode (s : String) : List Nat := (s.data.map utf8Bytes).flatten

/-! ### The ticker matcher (the shared list comprehension of the collectors) -/

/-- ASCII lower-casing of one character, as `str.lower()` acts on the
watch-list and headline alphabet used here. -/
def lowerChar (c : Char) : Char :=
  if 65 ≤ c.toNat ∧ c.toNat ≤ 90 then Char.ofNat (c.toNat + 32) else c

/-- `s.lower()`. -/
def lowerStr (s : String) : String := String.mk (s.data.map lowerChar)

/-- Does the first list lead the second (needle is an initial segment)? -/
def leadsWith : List Char → List Char → Bool
  | [], _ => true
  | _ :: _, [] => false
  | a :: as, b :: bs => a == b && leadsWith as bs

/-- Contiguous-substring test, scanning every start position. -/
def subStrB : List Char → List Char → Bool
  | needle, [] => leadsWith needle []
  | needle, c :: rest => leadsWith needle (c :: rest) || subStrB needle rest

/-- The Python `needle in hay` test on strings. -/
def pyIn (needle hay : String) : Bool := subStrB needle.data hay.data

/-- Mathematical substring containment, used to state the matcher contract. -/
def OccursIn (needle hay : String) : Prop :=
  ∃ l r, hay.data = l ++ needle.data ++ r

/-- The matcher of the collectors:
`[ticker for name, ticker in watchlist.items() if name.lower() in title.lower() or ticker.lower() in title.lower()]`. -/
def matchMentions (watchlist : List (String × String)) (title : String) : List String :=
  (watchlist.filter (fun p =>
    pyIn (lowerStr p.1) (lowerStr title) || pyIn (lowerStr p.2) (lowerStr title))).map
    (fun p => p.2)

/-! ### The store: the two DuckDB tables shared by the collectors -/

/-- The persisted state: `news_articles(article_id PRIMARY KEY, title, timestamp)`
and `ticker_mentions(article_id, ticker)`.  Timestamps are epoch seconds. -/
structure Store where
  news_articles : List (String × String × Int)
  ticker_mentions : List (String × String)
deriving DecidableEq

def emptyStore : Store := ⟨[], []⟩

/-- Whether an `INSERT INTO news_articles` would raise a primary-key
`ConstraintException` for this id. -/
def articleIdExists (st : Store) (aid : String) : Bool :=
  st.news_articles.any (fun r => r.1 == aid)

namespace Gdelt

/-- `hash_id` of the GDELT notebook: SHA-256 hex digest of the UTF-8 bytes. -/
def hash_id (text : String) : String := sha256Hex (strEncode text)

/-- The GDELT watch-list (`COMPANY_NAMES`). -/
def COMPANY_NAMES : List (String × String) :=
  [("Google", "GOOGL"), ("Apple", "AAPL"), ("Amazon", "AMZN"), ("Nvidia", "NVDA"),
   ("Microsoft", "MSFT"), ("Bitcoin", "BTC"), ("Ripple", "XRP")]

/-- One article dict as the GDELT API sends it: `url`, `title` (defaulted to
the empty string by `art.get`), and `seendate` modelled as the parsed epoch
value, `none` when the field is missing or empty. -/
structure GArticle where
  url : String
  title : String
  seendate : Option Int
deriving DecidableEq

/-- The loop body of the GDELT `save_to_db`.  Per article: skip when
`seendate` is falsy; match tickers; skip when no mentions; try to insert the
article row, and on a duplicate primary key the except branch is `pass`,
after which the mention rows are inserted unconditionally. -/
def saveArticle (st : Store) (art : GArticle) : Store :=
  let article_id := hash_id art.url
  let title := art.title
  match art.seendate with
  | none => st
  | some timestamp =>
    let mentions := matchMentions COMPANY_NAMES title
    if mentions.isEmpty then st
    else
      let st1 :=
        if articleIdExists st article_id then st
        else { st with news_articles := st.news_articles ++ [(article_id, title, timestamp)] }
      { st1 with
          ticker_mentions := st1.ticker_mentions ++ mentions.map (fun tk => (article_id, tk)) }

/-- `save_to_db` of the GDELT notebook: the upsert loop over the batch. -/
def save_to_db (st : Store) (articles : List GArticle) : Store :=
  articles.foldl saveArticle st

/-- One page response of the paged GDELT endpoint: a non-200 status, or the
list of article rows (the API caps a page at `maxrecords=250`). -/
inductive PageResp where
  | httpError : PageResp
  | ok : List GArticle → PageResp

/-- The paging loop of `fetch_news`: append the rows of the current page,
then `if len(rows) <= 250: break` else move to the next page.  The fuel
argument only bounds the unrolling of the `while True` loop. -/
def fetchLoop (pages : Nat → PageResp) : Nat → Nat → List GArticle → List GArticle
  | 0, _, acc => acc
  | fuel + 1, page, acc =>
    match pages page with
    | .httpError => acc
    | .ok rows =>
      let acc2 := acc ++ rows
      if rows.length ≤ 250 then acc2
      else fetchLoop pages fuel (page + 1) acc2

/-- `fetch_news`: start at page 1 with an empty accumulator. -/
def fetch_news (pages : Nat → PageResp) (fuel : Nat) : List GArticle :=
  fetchLoop pages fuel 1 []

end Gdelt

namespace Rss

/-- `hash_id` of the RSS notebook, textually the same helper. -/
def hash_id (text : String) : String := sha256Hex (strEncode text)

/-- The RSS watch-list: it tracks the literal string XRP, not Ripple. -/
def COMPANY_NAMES : List (String × String) :=
  [("Google", "GOOGL"), ("Apple", "AAPL"), ("Amazon", "AMZN"), ("Nvidia", "NVDA"),
   ("Microsoft", "MSFT"), ("Bitcoin", "BTC"), ("XRP", "XRP")]

/-- One feed entry: `title` and `link` (defaulted to the empty string by
`getattr`), and `published_parsed` as the parsed epoch value when present. -/
structure RssEntry where
  title : String
  link : String
  published_parsed : Option Int
deriving DecidableEq

/-- `store_article`: insert the article row, and on a duplicate primary key
return immediately, so the mention rows are only written for a fresh id. -/
def store_article (st : Store) (title url : String) (ts : Int) (mentions : List String) : Store :=
  let article_id := hash_id url
  if articleIdExists st article_id then st
  else
    { news_articles := st.news_articles ++ [(article_id, title, ts)],
      ticker_mentions := st.ticker_mentions ++ mentions.map (fun tk => (article_id, tk)) }

/-- The per-entry body of `poll_once`: skip entries with a falsy title or
link, take `published_parsed` as the timestamp when present and the current
UTC time otherwise, match tickers, and store matched entries, counting them. -/
def pollEntry (now : Int) (acc : Store × Nat) (e : RssEntry) : Store × Nat :=
  if e.title == "" || e.link == "" then acc
  else
    let ts : Int :=
      match e.published_parsed with
      | some t => t
      | none => now
    let mentions := matchMentions COMPANY_NAMES e.title
    if mentions.isEmpty then acc
    else (store_article acc.1 e.title e.link ts mentions, acc.2 + 1)

/-- The entry loop of `poll_once` over the entries of one feed. -/
def pollEntries (now : Int) (entries : List RssEntry) (acc : Store × Nat) : Store × Nat :=
  entries.foldl (pollEntry now) acc

/-- What one `feedparser.parse(url)` call yields inside the feed loop: either
a parse result carrying an entry list (an unreachable or malformed feed gives
a bozo result whose entry list is empty), or a hypothetical exception raised
while the feed is processed. -/
inductive FeedFetch where
  | entries : List RssEntry → FeedFetch
  | raisesError : FeedFetch

/-- The feed loop of `poll_once`.  The source has no try or except around the
loop body, so a raised exception propagates and aborts the whole cycle; this
is the `Except.error` branch. -/
def pollFeedsLoop (now : Int) : List FeedFetch → Store × Nat → Except Unit (Store × Nat)
  | [], acc => .ok acc
  | f :: fs, acc =>
    match f with
    | .raisesError => .error ()
    | .entries es => pollFeedsLoop now fs (pollEntries now es acc)

/-- `poll_once`: scan all feeds once, returning the stored state and the
number of matching headlines stored. -/
def poll_once (now : Int) (feeds : List FeedFetch) (st : Store) : Except Unit (Store × Nat) :=
  pollFeedsLoop now feeds (st, 0)

end Rss

namespace Twitter

/-- `hash_id` of the Twitter notebook, textually the same helper. -/
def hash_id (text : String) : String := sha256Hex (strEncode text)

/-- The Twitter watch-list, same as the GDELT one. -/
def COMPANY_NAMES : List (String × String) :=
  [("Google", "GOOGL"), ("Apple", "AAPL"), ("Amazon", "AMZN"), ("Nvidia", "NVDA"),
   ("Microsoft", "MSFT"), ("Bitcoin", "BTC"), ("Ripple", "XRP")]

def MIN_FOLLOWERS : Nat := 10000

/-- One fetched tweet: `id`, `text`, `created_at` (the strptime result,
modelled as epoch seconds), and the author follower count (`getattr`
defaults a missing count to 0, so a missing count is just the value 0). -/
structure Tweet where
  id : String
  text : String
  created_at : Int
  followers_count : Nat
deriving DecidableEq

/-- The loop body of the Twitter `save_to_db`: drop tweets below
`MIN_FOLLOWERS` before anything else, key the row on the hash of the tweet
id, match tickers, skip unmatched tweets, and on a duplicate primary key
`continue`, so neither mention rows nor the counter are touched for a
duplicate. -/
def saveTweet (acc : Store × Nat) (tw : Tweet) : Store × Nat :=
  if tw.followers_count < MIN_FOLLOWERS then acc
  else
    let tweet_id := hash_id tw.id
    let title := tw.text
    let ts := tw.created_at
    let mentions := matchMentions COMPANY_NAMES title
    if mentions.isEmpty then acc
    else if articleIdExists acc.1 tweet_id then acc
    else
      ({ news_articles := acc.1.news_articles ++ [(tweet_id, title, ts)],
         ticker_mentions := acc.1.ticker_mentions ++ mentions.map (fun tk => (tweet_id, tk)) },
       acc.2 + 1)

/-- `save_to_db` of the Twitter notebook: the loop over the fetched batch,
returning the new store and the number of rows added. -/
def save_to_db (st : Store) (tweets : List Tweet) : Store × Nat :=
  tweets.foldl saveTweet (st, 0)

/-- What one `latest_tweets` call produces inside `poll_twitter`: a tweet
list, or a `TooManyRequests` exception carrying `rate_limit_reset`. -/
inductive FetchOutcome where
  | ok : List Tweet → FetchOutcome
  | tooManyRequests : Int → FetchOutcome

/-- The `poll_twitter` loop over a finite script of fetch outcomes, each
paired with the clock value when it happens.  A rate limit is caught inside
the loop: the computed wait `max(1, reset - now)` is recorded in the sleep
log and the loop continues with the next cycle; a tweet batch is saved when
non-empty.  The function is total: no outcome reaches the caller as an
error. -/
def poll_twitter : List (Int × FetchOutcome) → Store → Store × List Int
  | [], st => (st, [])
  | (now, .tooManyRequests reset) :: rest, st =>
    let wait : Int := max 1 (reset - now)
    let r := poll_twitter rest st
    (r.1, wait :: r.2)
  | (_, .ok tweets) :: rest, st =>
    let st1 := if tweets.isEmpty then st else (save_to_db st tweets).1
    poll_twitter rest st1

end Twitter

/-! ### The attention graph builder -/

/-- All unordered pairs of a ticker list, as the pairs (earlier, later). -/
def unorderedPairs : List String → List (String × String)
  | [] => []
  | t :: ts => ts.map (fun u => (t, u)) ++ unorderedPairs ts

/-- Increment the weight of the undirected edge between a and b. -/
def bumpEdge (w : String → String → Nat) (a b : String) : String → String → Nat :=
  fun x y => if (x = a ∧ y = b) ∨ (x = b ∧ y = a) then w x y + 1 else w x y

/-- Modelled from the spec: the Attention Graph Builder is not part of the
collector notebooks, so its co-mention update is taken from the
specification text: for every mention event, every unordered pair of its
matched tickers gets its edge weight incremented by a single co-mention
unit (triangle expansion). -/
def addCoMentions (w : String → String → Nat) (tickers : List String) : String → String → Nat :=
  (unorderedPairs tickers).foldl (fun w p => bumpEdge w p.1 p.2) w

/-- Modelled from the spec: the graph over a window is the fold of the
per-event co-mention update over the events of the window, from the empty
(all-zero) weight function. -/
def buildGraph (events : List (List String)) : String → String → Nat :=
  events.foldl addCoMentions (fun _ _ => 0)

/-- The id-uniqueness invariant of the `news_articles` table: the primary
key column is duplicate-free. -/
def storeIdsNodup (st : Store) : Prop :=
  (st.news_articles.map (fun r => r.1)).Nodup

/-- A concrete page oracle for the paging analysis: page 1 is full (exactly
the 250 records the endpoint caps a page at), page 2 holds one further
record. -/
def gdeltPagesEx : Nat → Gdelt.PageResp := fun p =>
  if p = 1 then
    Gdelt.PageResp.ok
      (List.replicate 250 ⟨"https://gdelt.example.com/page1", "Nvidia leads", some 100⟩)
  else Gdelt.PageResp.ok [⟨"https://gdelt.example.com/page2", "Nvidia leads", some 200⟩]

/-- A store already holding the article id of a syndicated URL, as the GDELT
poller leaves it after storing that article. -/
def syndicatedStore : Store :=
  ⟨[(Gdelt.hash_id "https://example.com/syndicated", "Apple rises", 100)], []⟩

/-! ### Theorems -/

/-- The initial-segment test is correct. -/
theorem leadsWith_iff (n h : List Char) : leadsWith n h = true ↔ ∃ r, h = n ++ r := by
  induction n generalizing h with
  | nil => simp [leadsWith]
  | cons a as ih =>
    cases h with
    | nil => simp [leadsWith]
    | cons b bs =>
      simp only [leadsWith, Bool.and_eq_true, beq_iff_eq, ih, List.cons_append,
        List.cons.injEq]
      constructor
      · rintro ⟨rfl, r, rfl⟩
        exact ⟨r, rfl, rfl⟩
      · rintro ⟨r, rfl, rfl⟩
        exact ⟨rfl, r, rfl⟩

/-- The substring scan is correct: it reports exactly contiguous substring
containment. -/
theorem subStrB_iff (n h : List Char) : subStrB n h = true ↔ ∃ l r, h = l ++ n ++ r := by
  induction h with
  | nil =>
    simp only [subStrB, leadsWith_iff]
    constructor
    · rintro ⟨r, hr⟩
      exact ⟨[], r, by simpa using hr⟩
    · rintro ⟨l, r, hr⟩
      rw [List.nil_eq, List.append_assoc, List.append_eq_nil] at hr
      exact ⟨r, hr.2.symm⟩
  | cons c rest ih =>
    simp only [subStrB, Bool.or_eq_true]
    constructor
    · rintro (hlead | hsub)
      · obtain ⟨r, hr⟩ := (leadsWith_iff n (c :: rest)).1 hlead
        exact ⟨[], r, by simpa using hr⟩
      · obtain ⟨l, r, hr⟩ := ih.1 hsub
        exact ⟨c :: l, r, by simp [hr]⟩
    · rintro ⟨l, r, hr⟩
      cases l with
      | nil =>
        left
        exact (leadsWith_iff n (c :: rest)).2 ⟨r, by simpa using hr⟩
      | cons x xs =>
        right
        rw [List.cons_append, List.cons_append, List.cons.injEq] at hr
        exact ih.2 ⟨xs, r, by simp [hr.2]⟩

/-- The Python string containment test agrees with substring containment. -/
theorem pyIn_iff (n h : String) : pyIn n h = true ↔ OccursIn n h := by
  rw [pyIn, OccursIn, subStrB_iff]

/-- C2.  For every watch-list and input text, membership in the matcher
result is exactly: some watch-list entry carries this ticker, and the
lower-cased entity name or the lower-cased ticker symbol occurs as a
contiguous substring of the lower-cased text.  Every entry whose name or
symbol appears is reported, so overlapping matches are all present and no
longest-match rule exists. -/
theorem matchMentions_mem_iff (watchlist : List (String × String)) (title tk : String) :
    tk ∈ matchMentions watchlist title ↔
      ∃ name, (name, tk) ∈ watchlist ∧
        (OccursIn (lowerStr name) (lowerStr title) ∨ OccursIn (lowerStr tk) (lowerStr title)) := by
  rw [matchMentions, List.mem_map]
  constructor
  · rintro ⟨p, hp, rfl⟩
    rw [List.mem_filter, Bool.or_eq_true, pyIn_iff, pyIn_iff] at hp
    exact ⟨p.1, hp.1, hp.2⟩
  · rintro ⟨name, hmem, hocc⟩
    refine ⟨(name, tk), ?_, rfl⟩
    rw [List.mem_filter, Bool.or_eq_true, pyIn_iff, pyIn_iff]
    exact ⟨hmem, hocc⟩

/-- Folding edge bumps over a pair list adds, at each edge, the number of
pairs that hit that edge in either orientation. -/
theorem foldl_bumpEdge (ps : List (String × String)) (w : String → String → Nat) (x y : String) :
    (ps.foldl (fun w p => bumpEdge w p.1 p.2) w) x y
      = w x y + ps.countP (fun p => decide ((x = p.1 ∧ y = p.2) ∨ (x = p.2 ∧ y = p.1))) := by
  induction ps generalizing w with
  | nil => simp
  | cons p ps ih =>
    rw [List.foldl_cons, ih, List.countP_cons]
    by_cases hc : (x = p.1 ∧ y = p.2) ∨ (x = p.2 ∧ y = p.1)
    · simp [bumpEdge, hc]
      omega
    · simp [bumpEdge, hc]

/-- In a duplicate-free list, the number of elements equal to a given value
is one when the value is present and zero otherwise. -/
theorem countP_eq_of_nodup (l : List String) (hl : l.Nodup) (a : String) :
    l.countP (fun u => decide (a = u)) = if a ∈ l then 1 else 0 := by
  induction l with
  | nil => simp
  | cons b bs ih =>
    obtain ⟨hb, hbs⟩ := List.nodup_cons.1 hl
    rw [List.countP_cons, ih hbs]
    by_cases hab : a = b
    · subst hab
      simp [hb]
    · simp [hab, Ne.symm hab]

/-- For a duplicate-free ticker list, the unordered-pair expansion hits the
edge between two distinct members exactly once and every other edge not at
all. -/
theorem countP_unorderedPairs (ts : List String) (h : ts.Nodup) (x y : String) :
    (unorderedPairs ts).countP (fun p => decide ((x = p.1 ∧ y = p.2) ∨ (x = p.2 ∧ y = p.1)))
      = if x ≠ y ∧ x ∈ ts ∧ y ∈ ts then 1 else 0 := by
  induction ts with
  | nil => simp [unorderedPairs]
  | cons t ts ih =>
    obtain ⟨hnt, hnd⟩ := List.nodup_cons.1 h
    rw [unorderedPairs, List.countP_append, List.countP_map, ih hnd]
    by_cases hx : x = t <;> by_cases hy : y = t
    · have hcong : List.countP ((fun p => decide ((x = p.1 ∧ y = p.2) ∨ (x = p.2 ∧ y = p.1))) ∘
          (fun u => (t, u))) ts = List.countP (fun u => decide (x = u)) ts := by
        apply List.countP_congr
        intro u _
        have hiff : ((x = t ∧ y = u) ∨ (x = u ∧ y = t)) ↔ (x = u) := by
          constructor
          · rintro (⟨h2, h3⟩ | ⟨h3, h4⟩)
            · exact (hx.trans hy.symm).trans h3
            · exact h3
          · intro h2
            exact Or.inr ⟨h2, hy⟩
        simpa [Function.comp] using hiff
      rw [hcong, countP_eq_of_nodup ts hnd]
      have hxy : x = y := hx.trans hy.symm
      have hxts : x ∉ ts := by
        rw [hx]
        exact hnt
      have hyts : y ∉ ts := by
        rw [hy]
        exact hnt
      simp [hxts, hyts, hxy]
    · have hcong : List.countP ((fun p => decide ((x = p.1 ∧ y = p.2) ∨ (x = p.2 ∧ y = p.1))) ∘
          (fun u => (t, u))) ts = List.countP (fun u => decide (y = u)) ts := by
        apply List.countP_congr
        intro u _
        have hiff : ((x = t ∧ y = u) ∨ (x = u ∧ y = t)) ↔ (y = u) := by
          constructor
          · rintro (⟨h2, h3⟩ | ⟨h3, h4⟩)
            · exact h3
            · exact absurd h4 hy
          · intro h2
            exact Or.inl ⟨hx, h2⟩
        simpa [Function.comp] using hiff
      rw [hcong, countP_eq_of_nodup ts hnd]
      have hxts : x ∉ ts := by
        rw [hx]
        exact hnt
      have hxy : x ≠ y := fun h2 => hy (h2.symm.trans hx)
      have hty : ¬ t = y := fun h2 => hy h2.symm
      by_cases hyts : y ∈ ts
      · simp [hxts, hxy, hx, hyts, hnt, hty, List.mem_cons]
      · simp [hxts, hxy, hx, hyts, hy, hnt, hty, List.mem_cons]
    · have hcong : List.countP ((fun p => decide ((x = p.1 ∧ y = p.2) ∨ (x = p.2 ∧ y = p.1))) ∘
          (fun u => (t, u))) ts = List.countP (fun u => decide (x = u)) ts := by
        apply List.countP_congr
        intro u _
        have hiff : ((x = t ∧ y = u) ∨ (x = u ∧ y = t)) ↔ (x = u) := by
          constructor
          · rintro (⟨h2, h3⟩ | ⟨h3, h4⟩)
            · exact absurd h2 hx
            · exact h3
          · intro h2
            exact Or.inr ⟨h2, hy⟩
        simpa [Function.comp] using hiff
      rw [hcong, countP_eq_of_nodup ts hnd]
      have hyts : y ∉ ts := by
        rw [hy]
        exact hnt
      have hxy : x ≠ y := fun h2 => hx (h2.trans hy)
      by_cases hxts : x ∈ ts
      · simp [hyts, hxy, hy, hxts, hnt, hx, List.mem_cons]
      · simp [hyts, hxy, hy, hxts, hnt, hx, List.mem_cons]
    · have hcong : List.countP ((fun p => decide ((x = p.1 ∧ y = p.2) ∨ (x = p.2 ∧ y = p.1))) ∘
          (fun u => (t, u))) ts = 0 := by
        rw [List.countP_eq_zero]
        intro u _
        have hiff : ¬ ((x = t ∧ y = u) ∨ (x = u ∧ y = t)) := by
          rintro (⟨h2, h3⟩ | ⟨h3, h4⟩)
          · exact hx h2
          · exact hy h4
        simpa using hiff
      rw [hcong]
      simp [List.mem_cons, hx, hy]

/-- C4.  For every mention event whose matched-ticker list is
duplicate-free, the co-mention update adds exactly one unit to the weight of
every unordered pair of distinct tickers of the event and leaves every other
edge, self-loops included, unchanged: a three-ticker event thus increments
exactly its three pairwise edges by one unit each and creates no self-loop. -/
theorem addCoMentions_weight (tickers : List String) (hnd : tickers.Nodup)
    (w : String → String → Nat) (x y : String) :
    addCoMentions w tickers x y
      = w x y + (if x ≠ y ∧ x ∈ tickers ∧ y ∈ tickers then 1 else 0) := by
  rw [addCoMentions, foldl_bumpEdge, countP_unorderedPairs tickers hnd]

/-- Witness for C4 at the event of the spec scenario: the edge between AAPL
and MSFT gains one unit and the AAPL self-loop stays at zero. -/
theorem addCoMentions_weight_witness :
    addCoMentions (fun _ _ => 0) ["AAPL", "MSFT", "NVDA"] "AAPL" "MSFT" = 1 ∧
    addCoMentions (fun _ _ => 0) ["AAPL", "MSFT", "NVDA"] "AAPL" "AAPL" = 0 := by
  constructor
  · rw [addCoMentions_weight ["AAPL", "MSFT", "NVDA"] (by decide) (fun _ _ => 0) "AAPL" "MSFT"]
    decide
  · rw [addCoMentions_weight ["AAPL", "MSFT", "NVDA"] (by decide) (fun _ _ => 0) "AAPL" "AAPL"]
    decide

/-- C5 counterexample.  With three feeds of which the second raises while
being processed, `poll_once` propagates the exception instead of returning
the stored matches of the other two feeds: the claim as stated fails, since
the source loop has no per-feed exception handler. -/
theorem rss_raised_parse_error_aborts_cycle :
    (Rss.poll_once 0
        [Rss.FeedFetch.entries [⟨"Apple hits record", "https://feed1.example.com/a", some 10⟩],
         Rss.FeedFetch.raisesError,
         Rss.FeedFetch.entries [⟨"Nvidia surges", "https://feed3.example.com/b", some 20⟩]]
        emptyStore).isOk = false := by
  rfl

/-- C5 amended.  A feed failure that feedparser absorbs into a bozo result
(an unreachable or malformed feed yields an empty entry list instead of
raising) is isolated: the cycle stores and counts the matches of the other
feeds exactly as if the failed feed were absent. -/
theorem rss_failed_feed_is_isolated (now : Int) (fs1 fs2 : List Rss.FeedFetch)
    (acc : Store × Nat) :
    Rss.pollFeedsLoop now (fs1 ++ Rss.FeedFetch.entries [] :: fs2) acc
      = Rss.pollFeedsLoop now (fs1 ++ fs2) acc := by
  induction fs1 generalizing acc with
  | nil => rfl
  | cons f fs ih =>
    cases f with
    | raisesError => rfl
    | entries es =>
      rw [List.cons_append, List.cons_append, Rss.pollFeedsLoop, Rss.pollFeedsLoop]
      exact ih (Rss.pollEntries now es acc)

/-- C7.  A rate-limit outcome carrying a reset time is absorbed inside the
polling loop: the loop records a sleep of `max 1 (reset - now)` seconds,
which is clamped to at least one second even for a zero or negative
computed wait, leaves the store untouched for that cycle, resumes with the
remaining cycles, and never turns the rate-limit signal into an error for
the caller (the run function is total and always returns a store). -/
theorem twitter_rate_limit_backoff (now reset : Int)
    (rest : List (Int × Twitter.FetchOutcome)) (st : Store) :
    Twitter.poll_twitter ((now, Twitter.FetchOutcome.tooManyRequests reset) :: rest) st
        = ((Twitter.poll_twitter rest st).1,
           max 1 (reset - now) :: (Twitter.poll_twitter rest st).2)
      ∧ (1 : Int) ≤ max 1 (reset - now) :=
  ⟨by rw [Twitter.poll_twitter], le_max_left 1 (reset - now)⟩

/-- C9.  A tweet whose author follower count is below `MIN_FOLLOWERS` is
dropped before matching and storage: prepending it to any batch leaves the
result of `save_to_db` unchanged, so no `news_articles` or `ticker_mentions`
row is ever written for it. -/
theorem twitter_low_influence_never_persisted (st : Store) (tw : Twitter.Tweet)
    (rest : List Twitter.Tweet) (h : tw.followers_count < Twitter.MIN_FOLLOWERS) :
    Twitter.save_to_db st (tw :: rest) = Twitter.save_to_db st rest := by
  rw [Twitter.save_to_db, Twitter.save_to_db, List.foldl_cons]
  have hstep : Twitter.saveTweet (st, 0) tw = (st, 0) := by
    rw [Twitter.saveTweet, if_pos h]
  rw [hstep]

/-- Witness for C9: a five-follower tweet about Apple is discarded. -/
theorem twitter_low_influence_never_persisted_witness :
    (5 : Nat) < Twitter.MIN_FOLLOWERS ∧
    Twitter.save_to_db emptyStore [⟨"12345", "Apple to the moon", 100, 5⟩]
      = Twitter.save_to_db emptyStore [] :=
  ⟨by decide,
   twitter_low_influence_never_persisted emptyStore ⟨"12345", "Apple to the moon", 100, 5⟩ []
     (by decide)⟩

set_option maxRecDepth 1000000 in
/-- Sanity check of the embedded hash: the SHA-256 test vector for the
three-byte message abc comes out as the standard digest. -/
theorem hash_id_sha256_test_vector :
    Gdelt.hash_id "abc" = "ba7816bf8f01cfea414140de5dae2223b00361a396177a9cb410ff61f20015ad" := by
  decide

set_option maxRecDepth 1000000 in
/-- C1.  Re-processing an article whose id is already stored is NOT a pure
no-op in the GDELT collector: the duplicate primary-key insert is absorbed
(`news_articles` keeps a single row), but because the except branch is
`pass` rather than `continue`, the mention rows are inserted again, leaving
two identical (event_id, ticker) rows after two inserts of the same
article. -/
theorem gdelt_duplicate_insert_duplicates_mentions :
    (Gdelt.save_to_db (Gdelt.save_to_db emptyStore
          [⟨"https://news.example.com/apple-rally", "Apple rallies", some 100⟩])
        [⟨"https://news.example.com/apple-rally", "Apple rallies", some 100⟩]).news_articles.length
        = 1
    ∧ (Gdelt.save_to_db (Gdelt.save_to_db emptyStore
          [⟨"https://news.example.com/apple-rally", "Apple rallies", some 100⟩])
        [⟨"https://news.example.com/apple-rally", "Apple rallies", some 100⟩]).ticker_mentions
        = [(Gdelt.hash_id "https://news.example.com/apple-rally", "AAPL"),
           (Gdelt.hash_id "https://news.example.com/apple-rally", "AAPL")] := by
  decide

set_option maxRecDepth 1000000 in
/-- C3.  When page 1 returns a full page of exactly 250 records, the paging
loop still stops: the break condition is `len(rows) <= 250`, which a full
page satisfies, so page 2 is never requested and only the 250 records of
page 1 are returned — against both the claim and the description of the
helper in the notebook, which says it pages until fewer than 250 results
are returned. -/
theorem gdelt_full_page_stops_pagination :
    Gdelt.fetch_news gdeltPagesEx 10
      = List.replicate 250 ⟨"https://gdelt.example.com/page1", "Nvidia leads", some 100⟩ := by
  rfl

set_option maxRecDepth 1000000 in
/-- C6 counterexample.  Two tracking-parameter variants of one URL do not
deduplicate: the id is the hash of the raw surface URL with no
normalization, the two ids differ, and both articles are stored. -/
theorem gdelt_tracking_variant_not_deduped :
    Gdelt.hash_id "https://example.com/story"
        ≠ Gdelt.hash_id "https://example.com/story?utm_source=x"
    ∧ (Gdelt.save_to_db emptyStore
          [⟨"https://example.com/story", "Apple rises", some 5⟩,
           ⟨"https://example.com/story?utm_source=x", "Apple rises", some 5⟩]).news_articles.length
        = 2 := by
  decide

/-- C8 counterexample.  An article that matches the watch-list but carries
no `seendate` is skipped entirely by the GDELT collector: nothing is
persisted, instead of falling back to the ingestion time. -/
theorem gdelt_missing_seendate_not_persisted :
    Gdelt.save_to_db emptyStore [⟨"https://example.com/nodate", "Apple rises", none⟩]
      = emptyStore := by
  rfl

/-- A negative duplicate-key probe means the id is absent from the table. -/
theorem articleIdExists_false (st : Store) (aid : String)
    (h : articleIdExists st aid = false) :
    aid ∉ st.news_articles.map (fun r => r.1) := by
  rw [articleIdExists, List.any_eq_false] at h
  rw [List.mem_map]
  rintro ⟨r, hr, hid⟩
  exact h r hr (beq_iff_eq.mpr hid)

/-- One GDELT upsert step keeps the primary-key column duplicate-free. -/
theorem saveArticle_preserves_idsNodup (st : Store) (art : Gdelt.GArticle)
    (h : storeIdsNodup st) : storeIdsNodup (Gdelt.saveArticle st art) := by
  obtain ⟨url, title, seendate⟩ := art
  cases seendate with
  | none => exact h
  | some ts =>
    by_cases hm : (matchMentions Gdelt.COMPANY_NAMES title).isEmpty
    · simp only [Gdelt.saveArticle, hm, if_true]
      exact h
    · by_cases he : articleIdExists st (Gdelt.hash_id url)
      · simp only [Gdelt.saveArticle, hm, if_false, he, if_true]
        exact h
      · have he2 : articleIdExists st (Gdelt.hash_id url) = false := by
          simpa using he
        simp only [Gdelt.saveArticle, hm, if_false, he, if_true, Bool.false_eq_true]
        rw [storeIdsNodup] at h ⊢
        simp only [List.map_append, List.map_cons, List.map_nil]
        rw [((List.perm_append_singleton _ _).nodup_iff)]
        exact List.nodup_cons.2 ⟨articleIdExists_false st _ he2, h⟩

/-- The GDELT batch upsert keeps the primary-key column duplicate-free. -/
theorem save_to_db_preserves_idsNodup (st : Store) (arts : List Gdelt.GArticle)
    (h : storeIdsNodup st) : storeIdsNodup (Gdelt.save_to_db st arts) := by
  induction arts generalizing st with
  | nil => exact h
  | cons a rest ih =>
    rw [Gdelt.save_to_db, List.foldl_cons]
    exact ih (Gdelt.saveArticle st a) (saveArticle_preserves_idsNodup st a h)

/-- C6 amended.  Event ids are derived deterministically from the raw
surface URL string with no normalization step: items with the same raw URL
get the same id, and the store keeps at most one `news_articles` row per id
(the primary-key column stays duplicate-free through any batch), so items
deduplicate to a single stored event exactly when their raw URL strings
coincide; distinct surface URLs, tracking-parameter variants included, are
stored separately. -/
theorem gdelt_ids_deterministic_and_unique (st : Store) (arts : List Gdelt.GArticle)
    (h : storeIdsNodup st) :
    storeIdsNodup (Gdelt.save_to_db st arts)
    ∧ ∀ a b : Gdelt.GArticle, a.url = b.url → Gdelt.hash_id a.url = Gdelt.hash_id b.url :=
  ⟨save_to_db_preserves_idsNodup st arts h, fun _ _ hab => by rw [hab]⟩

set_option maxRecDepth 1000000 in
/-- Witness for C6: inserting the same URL twice keeps the id column
duplicate-free. -/
theorem gdelt_ids_deterministic_and_unique_witness :
    storeIdsNodup emptyStore ∧
    storeIdsNodup (Gdelt.save_to_db emptyStore
      [⟨"https://example.com/story", "Apple rises", some 5⟩,
       ⟨"https://example.com/story", "Apple rises", some 5⟩]) :=
  ⟨by unfold storeIdsNodup; decide,
   (gdelt_ids_deterministic_and_unique emptyStore
      [⟨"https://example.com/story", "Apple rises", some 5⟩,
       ⟨"https://example.com/story", "Apple rises", some 5⟩] (by unfold storeIdsNodup; decide)).1⟩

/-- C8 amended.  The feed poller derives the stored timestamp from
`published_parsed` when present and falls back to the ingestion time
otherwise, still persisting and counting the matched entry; the global-news
collector, however, has no such fallback: an article whose `seendate` is
missing is skipped outright and nothing is persisted for it. -/
theorem rss_timestamp_fallback_gdelt_skips (now : Int) (e : Rss.RssEntry)
    (acc : Store × Nat) (a : Gdelt.GArticle)
    (ht : (e.title == "") = false) (hl : (e.link == "") = false)
    (hp : e.published_parsed = none)
    (hm : (matchMentions Rss.COMPANY_NAMES e.title).isEmpty = false)
    (hf : articleIdExists acc.1 (Rss.hash_id e.link) = false)
    (hs : a.seendate = none) :
    (Rss.pollEntries now [e] acc).1.news_articles
        = acc.1.news_articles ++ [(Rss.hash_id e.link, e.title, now)]
    ∧ (Rss.pollEntries now [e] acc).2 = acc.2 + 1
    ∧ Gdelt.save_to_db acc.1 [a] = acc.1 := by
  have hstep : Rss.pollEntry now acc e
      = (Rss.store_article acc.1 e.title e.link now (matchMentions Rss.COMPANY_NAMES e.title),
         acc.2 + 1) := by
    rw [Rss.pollEntry, ht, hl, hp]
    simp [hm]
  have hsa : Rss.store_article acc.1 e.title e.link now (matchMentions Rss.COMPANY_NAMES e.title)
      = { news_articles := acc.1.news_articles ++ [(Rss.hash_id e.link, e.title, now)],
          ticker_mentions := acc.1.ticker_mentions
            ++ (matchMentions Rss.COMPANY_NAMES e.title).map
                 (fun tk => (Rss.hash_id e.link, tk)) } := by
    rw [Rss.store_article, if_neg]
    rw [hf]
    simp
  have hskip : Gdelt.save_to_db acc.1 [a] = acc.1 := by
    obtain ⟨url, title, seendate⟩ := a
    cases seendate with
    | none => rfl
    | some ts => simp at hs
  refine ⟨?_, ?_, hskip⟩
  · show (Rss.pollEntry now acc e).1.news_articles = _
    rw [hstep, hsa]
  · show (Rss.pollEntry now acc e).2 = _
    rw [hstep]

set_option maxRecDepth 1000000 in
/-- Witness for C8: a matched feed entry with no publish metadata is stored
with the ingestion time 42 as its timestamp. -/
theorem rss_timestamp_fallback_gdelt_skips_witness :
    (Rss.pollEntries 42 [⟨"Apple rises", "https://feed.example.com/item1", none⟩]
        (emptyStore, 0)).1.news_articles
      = emptyStore.news_articles
          ++ [(Rss.hash_id "https://feed.example.com/item1", "Apple rises", 42)] :=
  (rss_timestamp_fallback_gdelt_skips 42 ⟨"Apple rises", "https://feed.example.com/item1", none⟩
      (emptyStore, 0) ⟨"https://example.com/nodate2", "Apple matched", none⟩
      (by decide) (by decide) rfl (by decide) (by decide) rfl).1

/-- C10.  The three separately defined `hash_id` helpers agree extensionally
(for every input each returns the one SHA-256 hex digest), that digest is
always 64 characters long, a URL already stored under its GDELT-derived id
makes the RSS `store_article` for the same URL a no-op (cross-source
deduplication of syndicated articles), and the microblog collector keys its
stored row on the hash of the tweet id rather than of a URL. -/
theorem hash_id_agreement :
    (∀ s : String, Gdelt.hash_id s = Rss.hash_id s ∧ Gdelt.hash_id s = Twitter.hash_id s)
    ∧ (∀ s : String, (Gdelt.hash_id s).length = 64)
    ∧ (∀ (st : Store) (title url : String) (ts : Int) (mentions : List String),
        articleIdExists st (Gdelt.hash_id url) = true →
        Rss.store_article st title url ts mentions = st)
    ∧ (∀ (st : Store) (tw : Twitter.Tweet),
        Twitter.MIN_FOLLOWERS ≤ tw.followers_count →
        (matchMentions Twitter.COMPANY_NAMES tw.text).isEmpty = false →
        articleIdExists st (Twitter.hash_id tw.id) = false →
        (Twitter.save_to_db st [tw]).1.news_articles
          = st.news_articles ++ [(Twitter.hash_id tw.id, tw.text, tw.created_at)]) := by
  refine ⟨fun s => ⟨rfl, rfl⟩, fun s => rfl, ?_, ?_⟩
  · intro st title url ts mentions h
    rw [Rss.store_article, if_pos]
    exact h
  · intro st tw h1 h2 h3
    have hlt : ¬ tw.followers_count < Twitter.MIN_FOLLOWERS := Nat.not_lt.2 h1
    show (Twitter.saveTweet (st, 0) tw).1.news_articles = _
    rw [Twitter.saveTweet, if_neg hlt]
    simp [h2, h3]

set_option maxRecDepth 1000000 in
/-- Witness for C10: one syndicated URL gives the same id to the GDELT and
RSS collectors and is not stored twice; a high-influence matched tweet is
stored under the hash of its tweet id. -/
theorem hash_id_agreement_witness :
    Gdelt.hash_id "https://example.com/syndicated" = Rss.hash_id "https://example.com/syndicated"
    ∧ (Gdelt.hash_id "https://example.com/syndicated").length = 64
    ∧ Rss.store_article syndicatedStore "Apple rises again" "https://example.com/syndicated"
        200 ["AAPL"] = syndicatedStore
    ∧ (Twitter.save_to_db emptyStore [⟨"98765", "Nvidia and Apple rally", 300, 20000⟩]).1.news_articles
        = emptyStore.news_articles
            ++ [(Twitter.hash_id "98765", "Nvidia and Apple rally", 300)] := by
  refine ⟨(hash_id_agreement.1 _).1, hash_id_agreement.2.1 _, ?_, ?_⟩
  · exact hash_id_agreement.2.2.1 syndicatedStore "Apple rises again"
      "https://example.com/syndicated" 200 ["AAPL"] (by decide)
  · exact hash_id_agreement.2.2.2 emptyStore ⟨"98765", "Nvidia and Apple rally", 300, 20000⟩
      (by decide) (by decide) (by decide)
